import Mathlib

/-!
Verification of the price/rate resolution engine.

Shallow embedding of the engine's core functions:
  * the expiring server-side cache (src/lib/cache/server-cache.ts),
  * the FX rate resolver chain and currency conversion (src/lib/currency/fx-rates.ts),
  * the retry wrapper shared by the fetchers,
  * the historical price locator (CoinGecko market-chart window scan),
  * the cost-basis / P&L engine and its currency conversion.

Prices, amounts and timestamps are modelled as rationals (`ℚ`) or integers
(`ℤ`); JavaScript number semantics such as NaN are out of scope.  Network
calls are modelled as explicit parameters (oracles): a provider fetch that
can fail is an `Option`-valued argument.  JavaScript truthiness on numbers
(`!x` is true for `undefined` and `0`) is modelled explicitly wherever the
source uses it.
-/

/-- JavaScript truthiness of an optional number: falsy iff absent or zero. -/
def truthyNum (x : Option ℚ) : Bool :=
  match x with
  | none => false
  | some v => v != 0

/-- JavaScript truthiness of an optional string: falsy iff absent or empty. -/
def truthyStr (x : Option String) : Bool :=
  match x with
  | none => false
  | some s => s != ""

/-- JavaScript `a || b` on an optional string `a` with string default `b`. -/
def jsOrString (a : Option String) (b : String) : String :=
  match a with
  | some s => if s = "" then b else s
  | none => b

/-!
## Expiring cache store — `src/lib/cache/server-cache.ts`

The JS `Map` backing the cache is modelled as an association list with
unique keys; `mapSet` overwrites the entry for an existing key in place and
`mapDelete` removes the key (all occurrences, which coincides with `Map`
behaviour on unique-keyed lists).
-/

/-- Model of `Map.prototype.set`: replace the first binding of the key, or
append a fresh one. -/
def mapSet {α : Type} : List (String × α) → String → α → List (String × α)
  | [], k, v => [(k, v)]
  | (k', v') :: rest, k, v =>
      if k' = k then (k, v) :: rest else (k', v') :: mapSet rest k v

/-- Model of `Map.prototype.delete`: drop the key's binding. -/
def mapDelete {α : Type} (m : List (String × α)) (k : String) : List (String × α) :=
  m.filter (fun p => p.1 != k)

/-- One cache entry: stored value, insertion time (`Date.now()`), and the
time-to-live already converted to milliseconds. -/
structure CacheEntry (α : Type) where
  data : α
  timestamp : ℚ
  ttl : ℚ
deriving DecidableEq

/-- The in-memory server cache state (the private `Map` of class
`ServerCache`).  The periodic sweep timer is modelled by the explicit
`cleanup` function. -/
structure ServerCache (α : Type) where
  cache : List (String × CacheEntry α)
deriving DecidableEq

/-- `ServerCache.set(key, data, ttlMinutes)`: store unconditionally with
`ttl = ttlMinutes * 60 * 1000` and `timestamp = Date.now()` (passed as
`now`). -/
def ServerCache.set {α : Type} (c : ServerCache α) (key : String) (data : α)
    (ttlMinutes : ℚ) (now : ℚ) : ServerCache α :=
  ⟨mapSet c.cache key ⟨data, now, ttlMinutes * 60 * 1000⟩⟩

/-- `ServerCache.get(key)`: return `null` on a missing key; on an expired
entry (`now - entry.timestamp > entry.ttl`) delete it and return `null`;
otherwise return the stored data.  Returns the possibly-updated cache state
alongside the result. -/
def ServerCache.get {α : Type} (c : ServerCache α) (key : String) (now : ℚ) :
    Option α × ServerCache α :=
  match List.lookup key c.cache with
  | none => (none, c)
  | some entry =>
      if now - entry.timestamp > entry.ttl then (none, ⟨mapDelete c.cache key⟩)
      else (some entry.data, c)

/-- `ServerCache.has(key)`: true iff `get` yields a value. -/
def ServerCache.has {α : Type} (c : ServerCache α) (key : String) (now : ℚ) : Bool :=
  (c.get key now).1.isSome

/-- `ServerCache.delete(key)`. -/
def ServerCache.del {α : Type} (c : ServerCache α) (key : String) : ServerCache α :=
  ⟨mapDelete c.cache key⟩

/-- The periodic `cleanup` sweep: remove every expired entry. -/
def ServerCache.cleanup {α : Type} (c : ServerCache α) (now : ℚ) : ServerCache α :=
  ⟨c.cache.filter (fun p => !(now - p.2.timestamp > p.2.ttl : Bool))⟩

/-- `ServerCache.getStats()`: size and keys. -/
def ServerCache.getStats {α : Type} (c : ServerCache α) : ℕ × List String :=
  (c.cache.length, c.cache.map (·.1))

lemma lookup_mapSet_self {α : Type} (m : List (String × α)) (k : String) (v : α) :
    List.lookup k (mapSet m k v) = some v := by
  induction m with
  | nil => simp [mapSet, List.lookup]
  | cons hd tl ih =>
      obtain ⟨k', v'⟩ := hd
      by_cases h : k' = k
      · simp [mapSet, h, List.lookup]
      · have hk : (k == k') = false := by
          simpa [beq_iff_eq] using Ne.symm h
        simp [mapSet, h, List.lookup, hk, ih]

lemma lookup_mapDelete_self {α : Type} (m : List (String × α)) (k : String) :
    List.lookup k (mapDelete m k) = none := by
  induction m with
  | nil => simp [mapDelete]
  | cons hd tl ih =>
      obtain ⟨k', v'⟩ := hd
      by_cases h : k' = k
      · simpa [mapDelete, h] using ih
      · have hk : (k' != k) = true := by simpa [bne_iff_ne] using h
        have hk2 : (k == k') = false := by
          simpa [beq_iff_eq] using Ne.symm h
        simp only [mapDelete, List.filter_cons, hk, if_true] at ih ⊢
        simp only [List.lookup, hk2]
        exact ih

/-- C2: `set(k, v, ttl)` immediately followed by `get(k)` returns `v` (for
any nonnegative TTL, i.e. any duration); and any entry with
`now - insertedAt > ttl` is treated as absent by `get` and removed from the
store (lazy eviction), with no appeal to the periodic sweep. -/
theorem serverCache_set_get_ttl :
    (∀ (α : Type) (c : ServerCache α) (key : String) (data : α) (ttlMinutes now : ℚ),
       0 ≤ ttlMinutes →
       ((c.set key data ttlMinutes now).get key now).1 = some data) ∧
    (∀ (α : Type) (c : ServerCache α) (key : String) (entry : CacheEntry α) (now : ℚ),
       List.lookup key c.cache = some entry →
       now - entry.timestamp > entry.ttl →
       (c.get key now).1 = none ∧
       List.lookup key ((c.get key now).2).cache = none) := by
  constructor
  · intro α c key data ttlMinutes now h
    have httl : ¬ (ttlMinutes * 60 * 1000 < 0) := not_lt.mpr (by positivity)
    simp [ServerCache.set, ServerCache.get, lookup_mapSet_self, httl]
  · intro α c key entry now hlook hexp
    simp [ServerCache.get, hlook, hexp, lookup_mapDelete_self]

/-- Witness for `serverCache_set_get_ttl` at concrete inputs. -/
theorem serverCache_set_get_ttl_witness :
    ((ServerCache.set (⟨[]⟩ : ServerCache ℕ) "k" 7 1 0).get "k" 0).1 = some 7 ∧
    ((⟨[("k", ⟨7, 0, 60000⟩)]⟩ : ServerCache ℕ).get "k" 120000).1 = none :=
  ⟨serverCache_set_get_ttl.1 ℕ ⟨[]⟩ "k" 7 1 0 (by norm_num),
   (serverCache_set_get_ttl.2 ℕ ⟨[("k", ⟨7, 0, 60000⟩)]⟩ "k" ⟨7, 0, 60000⟩ 120000
      (by rfl) (by norm_num)).1⟩

/-!
## FX rate service — `src/lib/currency/fx-rates.ts`

A provider HTTP call is modelled by a `FetchResult` oracle: the call either
throws (network error), or yields a response with an `ok` flag and a rate
record.  A rate record is a partial map `SupportedCurrency → Option ℚ`
(`none` models a key missing from the provider's JSON).  API keys are
`Option String` (`none` or the empty string are falsy, i.e. unconfigured).
-/

/-- The supported display currencies. -/
inductive SupportedCurrency where
  | USD
  | AUD
  | GBP
  | CAD
deriving DecidableEq, Repr

/-- Provenance of an FX rate (the `source` field). -/
inductive FXSource where
  | openexchangerates
  | exchangerateApi
  | fallback
deriving DecidableEq, Repr

/-- An FX rate.  The source's `baseCurrency` field is the constant `"USD"`
and is omitted. -/
structure FXRate where
  targetCurrency : SupportedCurrency
  rate : ℚ
  timestamp : ℤ
  source : FXSource
deriving DecidableEq, Repr

/-- A historical FX rate: an `FXRate` plus the `date` string (YYYY-MM-DD). -/
structure HistoricalFXRate where
  targetCurrency : SupportedCurrency
  rate : ℚ
  timestamp : ℤ
  date : String
  source : FXSource
deriving DecidableEq, Repr

/-- Outcome of one provider HTTP fetch: the fetch throws, or returns a
response with its `ok` flag and the decoded rate record. -/
inductive FetchResult where
  | thrown
  | response (ok : Bool) (rates : SupportedCurrency → Option ℚ)

/-- `fetchOpenExchangeRates`: returns `null` when the API key is not
configured, when the fetch throws, or when the response is not ok;
otherwise returns the provider's `data.rates` record. -/
def fetchOpenExchangeRates (apiKey : Option String) (net : FetchResult) :
    Option (SupportedCurrency → Option ℚ) :=
  if ¬ truthyStr apiKey then none
  else
    match net with
    | .thrown => none
    | .response ok rates => if ok then some rates else none

/-- `fetchExchangeRateAPI` (backup): same failure cases; on success it
rebuilds the record keeping only the requested currencies whose entry in
`conversion_rates` is truthy. -/
def fetchExchangeRateAPI (apiKey : Option String) (net : FetchResult)
    (currencies : List SupportedCurrency) :
    Option (SupportedCurrency → Option ℚ) :=
  if ¬ truthyStr apiKey then none
  else
    match net with
    | .thrown => none
    | .response ok rates =>
        if ok then
          some (fun c =>
            if c ∈ currencies ∧ truthyNum (rates c) then rates c else none)
        else none

/-- The statically configured `FALLBACK_RATES` table. -/
def FALLBACK_RATES : SupportedCurrency → ℚ
  | .USD => 1
  | .AUD => 154 / 100
  | .GBP => 79 / 100
  | .CAD => 137 / 100

/-- `getCurrentFXRates`: try the primary provider, then the backup, then the
static fallback table; build one `FXRate` per requested currency, with the
per-currency rate defaulting to `FALLBACK_RATES` when the chosen record's
entry is falsy (`rates![currency] || FALLBACK_RATES[currency]`). -/
def getCurrentFXRates (apiKey1 : Option String) (net1 : FetchResult)
    (apiKey2 : Option String) (net2 : FetchResult)
    (currencies : List SupportedCurrency) (timestamp : ℤ) : List FXRate :=
  let rates1 := fetchOpenExchangeRates apiKey1 net1
  let source1 := FXSource.openexchangerates
  let rates2 := match rates1 with
    | some r => some r
    | none => fetchExchangeRateAPI apiKey2 net2 currencies
  let source2 := match rates1 with
    | some _ => source1
    | none => FXSource.exchangerateApi
  let rates3 := match rates2 with
    | some r => r
    | none => fun c => some (FALLBACK_RATES c)
  let source3 := match rates2 with
    | some _ => source2
    | none => FXSource.fallback
  currencies.map (fun currency =>
    { targetCurrency := currency
      rate := match rates3 currency with
        | some x => if x = 0 then FALLBACK_RATES currency else x
        | none => FALLBACK_RATES currency
      timestamp := timestamp
      source := source3 })

/-- `fetchHistoricalOpenExchangeRates`: same failure structure as the
current-rate fetch, against the historical endpoint. -/
def fetchHistoricalOpenExchangeRates (apiKey : Option String)
    (net : FetchResult) : Option (SupportedCurrency → Option ℚ) :=
  if ¬ truthyStr apiKey then none
  else
    match net with
    | .thrown => none
    | .response ok rates => if ok then some rates else none

/-- `fetchHistoricalExchangeRateAPI`: the backup provider's free tier has no
historical data, so the source returns `null` unconditionally (after the
API-key check, which also returns `null`). -/
def fetchHistoricalExchangeRateAPI (apiKey : Option String) :
    Option (SupportedCurrency → Option ℚ) :=
  if ¬ truthyStr apiKey then none else none

/-- `getHistoricalFXRates`: try the primary historical endpoint, then the
backup (which never succeeds); if both fail, fetch the *current* rates and
return them re-tagged with the requested `date` and source `fallback`.  The
calendar-date formatting of the timestamp (local-timezone `Date` methods)
is abstracted as the `dateString` argument. -/
def getHistoricalFXRates (apiKey1 : Option String) (histNet : FetchResult)
    (apiKey2 : Option String) (curNet1 curNet2 : FetchResult)
    (dateString : String) (timestamp : ℤ)
    (currencies : List SupportedCurrency) : List HistoricalFXRate :=
  let rates1 := fetchHistoricalOpenExchangeRates apiKey1 histNet
  let rates2 := match rates1 with
    | some r => some r
    | none => fetchHistoricalExchangeRateAPI apiKey2
  let source2 := match rates1 with
    | some _ => FXSource.openexchangerates
    | none => FXSource.exchangerateApi
  match rates2 with
  | none =>
      (getCurrentFXRates apiKey1 curNet1 apiKey2 curNet2 currencies timestamp).map
        (fun r =>
          { targetCurrency := r.targetCurrency
            rate := r.rate
            timestamp := r.timestamp
            date := dateString
            source := FXSource.fallback })
  | some rates =>
      currencies.map (fun currency =>
        { targetCurrency := currency
          rate := match rates currency with
            | some x => if x = 0 then FALLBACK_RATES currency else x
            | none => FALLBACK_RATES currency
          timestamp := timestamp
          date := dateString
          source := source2 })

/-- `convertCurrency(amountUSD, fxRate)`: pure multiplication by the rate. -/
def convertCurrency (amountUSD : ℚ) (fxRate : FXRate) : ℚ :=
  amountUSD * fxRate.rate

/-- `getFXRate(rates, targetCurrency)`: first rate for the target currency. -/
def getFXRate (rates : List FXRate) (targetCurrency : SupportedCurrency) :
    Option FXRate :=
  rates.find? (fun rate => rate.targetCurrency = targetCurrency)

/-!
## Retry wrapper — `fetchWithRetry` in `src/lib/currency/fx-rates.ts` and
`src/app/api/prices/route.ts` (identical bodies)

Each attempt's outcome is an oracle `Nat → FetchOutcome`.  The embedding
returns the final result (`some status` when a non-429 response is
returned, `none` when the loop exhausts and throws `lastError`) together
with the list of sleep delays (in ms) performed, in order.  The `for` loop
over `attempt in [0, maxRetries)` is driven by a `fuel` counter equal to
`maxRetries - attempt`.
-/

/-- Outcome of one `fetch(url)` inside the retry loop: a response with its
HTTP status, or a thrown network error. -/
inductive FetchOutcome where
  | respStatus (status : ℕ)
  | netErr
deriving DecidableEq, Repr

/-- The retry loop body of `fetchWithRetry`, from loop counter `attempt`
with `fuel = maxRetries - attempt` iterations remaining.  A 429 response
sleeps `2 ^ attempt * 1000` ms and retries; any other response is returned;
a thrown error records `lastError` and sleeps `1000 * (attempt + 1)` ms —
but only when `attempt < maxRetries - 1` — before retrying. -/
def fetchWithRetryAux (oracle : ℕ → FetchOutcome) (maxRetries : ℕ) :
    ℕ → ℕ → List ℕ → Option ℕ × List ℕ
  | 0, _, delays => (none, delays)
  | fuel + 1, attempt, delays =>
      match oracle attempt with
      | .respStatus 429 =>
          fetchWithRetryAux oracle maxRetries fuel (attempt + 1)
            (delays ++ [2 ^ attempt * 1000])
      | .respStatus s => (some s, delays)
      | .netErr =>
          if attempt < maxRetries - 1 then
            fetchWithRetryAux oracle maxRetries fuel (attempt + 1)
              (delays ++ [1000 * (attempt + 1)])
          else
            fetchWithRetryAux oracle maxRetries fuel (attempt + 1) delays

/-- `fetchWithRetry(url, maxRetries)`: run the loop from attempt 0. -/
def fetchWithRetry (oracle : ℕ → FetchOutcome) (maxRetries : ℕ) :
    Option ℕ × List ℕ :=
  fetchWithRetryAux oracle maxRetries maxRetries 0 []

/-!
## Historical price locator — `fetchHistoricalCoinGeckoPrice` in
`src/app/api/prices/route.ts` and `getHistoricalPrice` in the token
valuation module (identical window and scan logic)
-/

/-- One step of the closest-point scan: keep the incumbent unless the next
point is strictly closer to the target timestamp. -/
def closestStep (timestamp : ℤ) (acc : ℚ × ℤ) (p : ℤ × ℚ) : ℚ × ℤ :=
  let diff := |p.1 - timestamp|
  if diff < acc.2 then (p.2, diff) else acc

/-- The nearest-neighbor selection over a returned price series: `null` for
an empty series, otherwise a linear scan (seeded with the first point)
keeping the point minimizing `abs(pointInstant - targetInstant)`. -/
def closestScan (prices : List (ℤ × ℚ)) (timestamp : ℤ) : Option ℚ :=
  match prices with
  | [] => none
  | p0 :: _ =>
      some (prices.foldl (closestStep timestamp) (p0.2, |p0.1 - timestamp|)).1

/-- `fetchHistoricalCoinGeckoPrice` after coin-id resolution: query the
series for the window `[floor(timestamp/1000) - 1800, floor(timestamp/1000)
+ 1800]` (±30 minutes, in seconds) and run the nearest-neighbor scan
against the original millisecond timestamp.  The provider is the `series`
oracle mapping a `(from, to)` window to the returned points. -/
def fetchHistoricalCoinGeckoPrice (series : ℤ → ℤ → List (ℤ × ℚ))
    (timestamp : ℤ) : Option ℚ :=
  let timestampSec := Int.fdiv timestamp 1000
  let fromSec := timestampSec - 1800
  let toSec := timestampSec + 1800
  closestScan (series fromSec toSec) timestamp

/-!
## Cost-basis / P&L engine — `pnl.ts` and `pnl-currency.ts` modules

`Transaction` keeps only the fields the P&L code reads.  `valueFormatted`
is the already-parsed numeric value (`parseFloat(tx.valueFormatted)`), and
`value` only matters through its truthiness, so it is an `Option String`.
The async price lookups (`getHistoricalPrice`, `getBatchHistoricalPrices`)
are passed in as `Option ℚ` / association-list arguments.
-/

/-- A transaction as read by the P&L engine. -/
structure Transaction where
  hash : String
  timestamp : Option ℤ
  toAddress : Option String
  fromAddress : String
  chainId : ℕ
  value : Option String
  valueFormatted : ℚ
  historicalPriceUsd : Option ℚ
  costBasisUsd : Option ℚ
  currentValueUsd : Option ℚ
  profitLossUsd : Option ℚ
  profitLossPercentage : Option ℚ
deriving DecidableEq, Repr

/-- JavaScript truthiness of the optional millisecond timestamp. -/
def truthyTimestamp (x : Option ℤ) : Bool :=
  match x with
  | none => false
  | some t => t != 0

/-- `calculateTransactionPnL(transaction, currentPriceUsd)`: skip when the
timestamp or raw value is falsy; the `getHistoricalPrice` network result is
the `historicalPriceUsd` argument (`none` covers both a `null` return and a
thrown error caught by the `try`); skip when it is falsy; otherwise enrich
the transaction with the five computed P&L fields. -/
def calculateTransactionPnL (tx : Transaction) (historicalPriceUsd : Option ℚ)
    (currentPriceUsd : ℚ) : Transaction :=
  if ¬ (truthyTimestamp tx.timestamp ∧ truthyStr tx.value) then tx
  else
    match historicalPriceUsd with
    | none => tx
    | some h =>
        if h = 0 then tx
        else
          let amount := tx.valueFormatted
          let costBasisUsd := amount * h
          let currentValueUsd := amount * currentPriceUsd
          let profitLossUsd := currentValueUsd - costBasisUsd
          let profitLossPercentage :=
            if costBasisUsd > 0 then profitLossUsd / costBasisUsd * 100 else 0
          { tx with
            historicalPriceUsd := some h
            costBasisUsd := some costBasisUsd
            currentValueUsd := some currentValueUsd
            profitLossUsd := some profitLossUsd
            profitLossPercentage := some profitLossPercentage }

/-- The `tokenAddress` used for a transaction's price keys:
`tx.to || tx.from`. -/
def txTokenAddress (tx : Transaction) : String :=
  jsOrString tx.toAddress tx.fromAddress

/-- The batch historical-price key for a transaction:
`address.toLowerCase()_chainId_timestamp`. -/
def txPriceKey (tx : Transaction) (ts : ℤ) : String :=
  (txTokenAddress tx).toLower ++ "_" ++ toString tx.chainId ++ "_" ++ toString ts

/-- The current-price key for a transaction: `address.toLowerCase()_chainId`. -/
def txCurrentPriceKey (tx : Transaction) : String :=
  (txTokenAddress tx).toLower ++ "_" ++ toString tx.chainId

/-- The per-transaction body of the `transactions.map` inside
`calculateBatchTransactionPnL` (with `includeTokenTransfers = false`, the
default): look up the historical price under
`address_chainId_timestamp` and the current price under `address_chainId`;
on any falsy lookup return the transaction untouched, otherwise enrich it. -/
def batchEnrichTx (historicalPrices currentPrices : List (String × ℚ))
    (tx : Transaction) : Transaction :=
  match tx.timestamp with
  | none => tx
  | some ts =>
      if ts = 0 then tx
      else
        match List.lookup (txPriceKey tx ts) historicalPrices with
        | none => tx
        | some historicalPriceUsd =>
            if historicalPriceUsd = 0 then tx
            else
              match List.lookup (txCurrentPriceKey tx) currentPrices with
              | none => tx
              | some currentPriceUsd =>
                  if currentPriceUsd = 0 then tx
                  else
                    let amount := tx.valueFormatted
                    let costBasisUsd := amount * historicalPriceUsd
                    let currentValueUsd := amount * currentPriceUsd
                    let profitLossUsd := currentValueUsd - costBasisUsd
                    let profitLossPercentage :=
                      if costBasisUsd > 0 then profitLossUsd / costBasisUsd * 100
                      else 0
                    { tx with
                      historicalPriceUsd := some historicalPriceUsd
                      costBasisUsd := some costBasisUsd
                      currentValueUsd := some currentValueUsd
                      profitLossUsd := some profitLossUsd
                      profitLossPercentage := some profitLossPercentage }

/-- `calculateBatchTransactionPnL(transactions, currentPrices)`: early
return on an empty list, otherwise map the per-transaction enrichment over
the list; `historicalPrices` is the batch price map fetched upstream. -/
def calculateBatchTransactionPnL (transactions : List Transaction)
    (historicalPrices currentPrices : List (String × ℚ)) : List Transaction :=
  if transactions = [] then transactions
  else transactions.map (batchEnrichTx historicalPrices currentPrices)

/-- The portfolio-wide P&L summary record. -/
structure PortfolioPnLSummary where
  totalCostBasisUsd : ℚ
  totalCurrentValueUsd : ℚ
  totalProfitLossUsd : ℚ
  totalProfitLossPercentage : ℚ
  transactionCount : ℕ
  profitableTransactions : ℕ
  lossTransactions : ℕ
  breakEvenTransactions : ℕ
deriving DecidableEq, Repr

/-- Accumulator of the `transactions.forEach` in
`calculatePortfolioPnLSummary`. -/
structure SummaryAcc where
  totalCostBasisUsd : ℚ
  totalCurrentValueUsd : ℚ
  transactionCount : ℕ
  profitableTransactions : ℕ
  lossTransactions : ℕ
  breakEvenTransactions : ℕ

/-- One iteration of the `forEach`: a transaction with both `costBasisUsd`
and `currentValueUsd` defined is added to the sums and counted; its
`profitLossUsd`, when defined, classifies it as profitable, loss, or
break-even. -/
def summaryStep (acc : SummaryAcc) (tx : Transaction) : SummaryAcc :=
  match tx.costBasisUsd, tx.currentValueUsd with
  | some cb, some cv =>
      let acc' := { acc with
        totalCostBasisUsd := acc.totalCostBasisUsd + cb
        totalCurrentValueUsd := acc.totalCurrentValueUsd + cv
        transactionCount := acc.transactionCount + 1 }
      match tx.profitLossUsd with
      | some p =>
          if p > 0 then
            { acc' with profitableTransactions := acc'.profitableTransactions + 1 }
          else if p < 0 then
            { acc' with lossTransactions := acc'.lossTransactions + 1 }
          else
            { acc' with breakEvenTransactions := acc'.breakEvenTransactions + 1 }
      | none => acc'
  | _, _ => acc

/-- `calculatePortfolioPnLSummary(transactions)`: fold the `forEach` step
over the list, then derive the aggregate profit and percentage from the
two sums. -/
def calculatePortfolioPnLSummary (transactions : List Transaction) :
    PortfolioPnLSummary :=
  let acc := transactions.foldl summaryStep ⟨0, 0, 0, 0, 0, 0⟩
  let totalProfitLossUsd := acc.totalCurrentValueUsd - acc.totalCostBasisUsd
  let totalProfitLossPercentage :=
    if acc.totalCostBasisUsd > 0 then
      totalProfitLossUsd / acc.totalCostBasisUsd * 100
    else 0
  { totalCostBasisUsd := acc.totalCostBasisUsd
    totalCurrentValueUsd := acc.totalCurrentValueUsd
    totalProfitLossUsd := totalProfitLossUsd
    totalProfitLossPercentage := totalProfitLossPercentage
    transactionCount := acc.transactionCount
    profitableTransactions := acc.profitableTransactions
    lossTransactions := acc.lossTransactions
    breakEvenTransactions := acc.breakEvenTransactions }

/-- `convertPnLSummaryToCurrency(summary, rates, targetCurrency)`: identity
for USD or a missing rate; otherwise multiply exactly the three absolute
monetary fields by the rate — the percentage and counts are unchanged. -/
def convertPnLSummaryToCurrency (summary : PortfolioPnLSummary)
    (rates : List FXRate) (targetCurrency : SupportedCurrency) :
    PortfolioPnLSummary :=
  if targetCurrency = .USD then summary
  else
    match rates.find? (fun r => r.targetCurrency = targetCurrency) with
    | none => summary
    | some rate =>
        { summary with
          totalCostBasisUsd := summary.totalCostBasisUsd * rate.rate
          totalCurrentValueUsd := summary.totalCurrentValueUsd * rate.rate
          totalProfitLossUsd := summary.totalProfitLossUsd * rate.rate }

/-- `convertTransactionPnLToCurrency(transaction, rates, targetCurrency)`:
identity for USD or a falsy `profitLossUsd` (undefined or zero) or a
missing rate; otherwise multiply the truthy USD-denominated fields by the
rate (a falsy optional field becomes `undefined`), leaving the percentage
unchanged. -/
def convertTransactionPnLToCurrency (tx : Transaction) (rates : List FXRate)
    (targetCurrency : SupportedCurrency) : Transaction :=
  if targetCurrency = .USD ∨ ¬ truthyNum tx.profitLossUsd then tx
  else
    match rates.find? (fun r => r.targetCurrency = targetCurrency) with
    | none => tx
    | some rate =>
        { tx with
          historicalPriceUsd :=
            match tx.historicalPriceUsd with
            | some h => if h = 0 then none else some (h * rate.rate)
            | none => none
          costBasisUsd :=
            match tx.costBasisUsd with
            | some cb => if cb = 0 then none else some (cb * rate.rate)
            | none => none
          currentValueUsd :=
            match tx.currentValueUsd with
            | some cv => if cv = 0 then none else some (cv * rate.rate)
            | none => none
          profitLossUsd :=
            match tx.profitLossUsd with
            | some p => some (p * rate.rate)
            | none => none }

/-!
## Claim theorems
-/

lemma calculateTransactionPnL_enrich (tx : Transaction) (h c : ℚ)
    (h1 : truthyTimestamp tx.timestamp = true)
    (h2 : truthyStr tx.value = true) (h3 : h ≠ 0) :
    calculateTransactionPnL tx (some h) c =
      { tx with
        historicalPriceUsd := some h
        costBasisUsd := some (tx.valueFormatted * h)
        currentValueUsd := some (tx.valueFormatted * c)
        profitLossUsd := some (tx.valueFormatted * c - tx.valueFormatted * h)
        profitLossPercentage := some
          (if tx.valueFormatted * h > 0 then
             (tx.valueFormatted * c - tx.valueFormatted * h) /
               (tx.valueFormatted * h) * 100
           else 0) } := by
  simp [calculateTransactionPnL, h1, h2, h3]

/-- C1: for a transfer with parsed quantity `q = valueFormatted`, available
historical unit price `h` and current unit price `c`, the engine produces
`costBasisUsd = q * h`, `currentValueUsd = q * c`,
`profitUsd = currentValueUsd - costBasisUsd`, and
`profitPct = profitUsd / costBasisUsd * 100` when `costBasisUsd > 0`, else
`0`; in particular `q = 10`, `h = 2000`, `c = 3200` yields
`costBasisUsd = 20000`, `currentValueUsd = 32000`, `profitUsd = 12000`,
`profitPct = 60`. -/
theorem pnl_single_transaction_formula :
    (∀ (tx : Transaction) (h c : ℚ),
       truthyTimestamp tx.timestamp = true →
       truthyStr tx.value = true →
       h ≠ 0 →
       calculateTransactionPnL tx (some h) c =
         { tx with
           historicalPriceUsd := some h
           costBasisUsd := some (tx.valueFormatted * h)
           currentValueUsd := some (tx.valueFormatted * c)
           profitLossUsd := some (tx.valueFormatted * c - tx.valueFormatted * h)
           profitLossPercentage := some
             (if tx.valueFormatted * h > 0 then
                (tx.valueFormatted * c - tx.valueFormatted * h) /
                  (tx.valueFormatted * h) * 100
              else 0) }) ∧
    (∀ tx : Transaction,
       tx.valueFormatted = 10 →
       truthyTimestamp tx.timestamp = true →
       truthyStr tx.value = true →
       (calculateTransactionPnL tx (some 2000) 3200).costBasisUsd = some 20000 ∧
       (calculateTransactionPnL tx (some 2000) 3200).currentValueUsd = some 32000 ∧
       (calculateTransactionPnL tx (some 2000) 3200).profitLossUsd = some 12000 ∧
       (calculateTransactionPnL tx (some 2000) 3200).profitLossPercentage = some 60) ∧
    (∀ (historicalPrices currentPrices : List (String × ℚ)) (tx : Transaction)
       (ts : ℤ) (h c : ℚ),
       tx.timestamp = some ts →
       ts ≠ 0 →
       List.lookup (txPriceKey tx ts) historicalPrices = some h →
       h ≠ 0 →
       List.lookup (txCurrentPriceKey tx) currentPrices = some c →
       c ≠ 0 →
       batchEnrichTx historicalPrices currentPrices tx =
         { tx with
           historicalPriceUsd := some h
           costBasisUsd := some (tx.valueFormatted * h)
           currentValueUsd := some (tx.valueFormatted * c)
           profitLossUsd := some (tx.valueFormatted * c - tx.valueFormatted * h)
           profitLossPercentage := some
             (if tx.valueFormatted * h > 0 then
                (tx.valueFormatted * c - tx.valueFormatted * h) /
                  (tx.valueFormatted * h) * 100
              else 0) }) := by
  refine ⟨?_, ?_, ?_⟩
  · exact fun tx h c h1 h2 h3 => calculateTransactionPnL_enrich tx h c h1 h2 h3
  · intro tx hv h1 h2
    rw [calculateTransactionPnL_enrich tx 2000 3200 h1 h2 (by norm_num), hv]
    norm_num
  · intro historicalPrices currentPrices tx ts h c hts hts0 hh hh0 hc hc0
    simp [batchEnrichTx, hts, hts0, hh, hh0, hc, hc0]

/-- A concrete transaction for the C1 scenario. -/
def txC1 : Transaction :=
  ⟨"0xdeadbeef", some 1700000000000, some "0xtok", "0xsender", 1,
   some "10000000000000000000", 10, none, none, none, none, none⟩

/-- Witness for `pnl_single_transaction_formula` at the spec's scenario. -/
theorem pnl_single_transaction_formula_witness :
    (calculateTransactionPnL txC1 (some 2000) 3200).costBasisUsd = some 20000 ∧
    (calculateTransactionPnL txC1 (some 2000) 3200).currentValueUsd = some 32000 ∧
    (calculateTransactionPnL txC1 (some 2000) 3200).profitLossUsd = some 12000 ∧
    (calculateTransactionPnL txC1 (some 2000) 3200).profitLossPercentage = some 60 :=
  pnl_single_transaction_formula.2.1 txC1 rfl (by decide) (by decide)

/-- C3: the current-FX resolver chain is total.  Any provider failure mode
— missing or empty API key, thrown fetch, non-ok response — yields `none`
from the provider wrapper; the chain returns one rate per requested
currency in every case; when the primary fails and the backup succeeds the
backup record is used with source `exchangerate-api`; and when every
provider fails, each requested currency gets the statically configured
fallback rate tagged `fallback`. -/
theorem getCurrentFXRates_chain_total :
    (∀ net, fetchOpenExchangeRates none net = none) ∧
    (∀ net, fetchOpenExchangeRates (some "") net = none) ∧
    (∀ apiKey, fetchOpenExchangeRates apiKey .thrown = none) ∧
    (∀ apiKey rates, fetchOpenExchangeRates apiKey (.response false rates) = none) ∧
    (∀ apiKey1 net1 apiKey2 net2 currencies ts,
       (getCurrentFXRates apiKey1 net1 apiKey2 net2 currencies ts).map
           (fun r => r.targetCurrency) = currencies) ∧
    (∀ apiKey1 net1 apiKey2 net2 currencies ts
       (r : SupportedCurrency → Option ℚ),
       fetchOpenExchangeRates apiKey1 net1 = none →
       fetchExchangeRateAPI apiKey2 net2 currencies = some r →
       getCurrentFXRates apiKey1 net1 apiKey2 net2 currencies ts =
         currencies.map (fun c =>
           { targetCurrency := c
             rate := match r c with
               | some x => if x = 0 then FALLBACK_RATES c else x
               | none => FALLBACK_RATES c
             timestamp := ts
             source := FXSource.exchangerateApi })) ∧
    (∀ apiKey1 net1 apiKey2 net2 currencies ts,
       fetchOpenExchangeRates apiKey1 net1 = none →
       fetchExchangeRateAPI apiKey2 net2 currencies = none →
       getCurrentFXRates apiKey1 net1 apiKey2 net2 currencies ts =
         currencies.map (fun c =>
           { targetCurrency := c
             rate := FALLBACK_RATES c
             timestamp := ts
             source := FXSource.fallback })) := by
  refine ⟨fun net => rfl, fun net => by simp [fetchOpenExchangeRates, truthyStr],
    ?_, ?_, ?_, ?_, ?_⟩
  · intro apiKey
    by_cases hk : truthyStr apiKey <;> simp [fetchOpenExchangeRates, hk]
  · intro apiKey rates
    by_cases hk : truthyStr apiKey <;> simp [fetchOpenExchangeRates, hk]
  · intro apiKey1 net1 apiKey2 net2 currencies ts
    simp only [getCurrentFXRates]
    rcases fetchOpenExchangeRates apiKey1 net1 with _ | r1
    · rcases fetchExchangeRateAPI apiKey2 net2 currencies with _ | r2 <;>
        simp [List.map_map, Function.comp_def]
    · simp [List.map_map, Function.comp_def]
  · intro apiKey1 net1 apiKey2 net2 currencies ts r h1 h2
    simp [getCurrentFXRates, h1, h2]
  · intro apiKey1 net1 apiKey2 net2 currencies ts h1 h2
    simp [getCurrentFXRates, h1, h2]

/-- Witness for `getCurrentFXRates_chain_total`: with no API keys and both
networks down, the chain still answers with the fallback table. -/
theorem getCurrentFXRates_chain_total_witness :
    getCurrentFXRates none .thrown none .thrown [.AUD, .GBP] 0 =
      [{ targetCurrency := .AUD, rate := 154 / 100, timestamp := 0,
         source := .fallback },
       { targetCurrency := .GBP, rate := 79 / 100, timestamp := 0,
         source := .fallback }] := by
  rw [getCurrentFXRates_chain_total.2.2.2.2.2.2 none .thrown none .thrown
    [.AUD, .GBP] 0 rfl rfl]
  rfl

/-- C7: converting a P&L summary to a non-USD currency whose rate is in the
list multiplies exactly the three absolute monetary fields by the rate;
the percentage and every transaction-count field are unchanged in all
cases; and converting an amount itself is pure multiplication by the rate. -/
theorem convertPnLSummary_monetary_only :
    (∀ (summary : PortfolioPnLSummary) (rates : List FXRate)
       (targetCurrency : SupportedCurrency) (rate : FXRate),
       targetCurrency ≠ .USD →
       rates.find? (fun r => r.targetCurrency = targetCurrency) = some rate →
       convertPnLSummaryToCurrency summary rates targetCurrency =
         { summary with
           totalCostBasisUsd := summary.totalCostBasisUsd * rate.rate
           totalCurrentValueUsd := summary.totalCurrentValueUsd * rate.rate
           totalProfitLossUsd := summary.totalProfitLossUsd * rate.rate }) ∧
    (∀ (summary : PortfolioPnLSummary) (rates : List FXRate)
       (targetCurrency : SupportedCurrency),
       (convertPnLSummaryToCurrency summary rates targetCurrency).totalProfitLossPercentage
           = summary.totalProfitLossPercentage ∧
       (convertPnLSummaryToCurrency summary rates targetCurrency).transactionCount
           = summary.transactionCount ∧
       (convertPnLSummaryToCurrency summary rates targetCurrency).profitableTransactions
           = summary.profitableTransactions ∧
       (convertPnLSummaryToCurrency summary rates targetCurrency).lossTransactions
           = summary.lossTransactions ∧
       (convertPnLSummaryToCurrency summary rates targetCurrency).breakEvenTransactions
           = summary.breakEvenTransactions) ∧
    (∀ (amountUSD : ℚ) (fxRate : FXRate),
       convertCurrency amountUSD fxRate = amountUSD * fxRate.rate) := by
  refine ⟨?_, ?_, fun amountUSD fxRate => rfl⟩
  · intro summary rates targetCurrency rate hne hfind
    simp [convertPnLSummaryToCurrency, hne, hfind]
  · intro summary rates targetCurrency
    by_cases husd : targetCurrency = SupportedCurrency.USD
    · simp [convertPnLSummaryToCurrency, husd]
    · rcases hfind : rates.find? (fun r => r.targetCurrency = targetCurrency) with
        _ | rate <;> simp [convertPnLSummaryToCurrency, husd, hfind]

/-- Witness for `convertPnLSummary_monetary_only` at a concrete summary and
rate list. -/
theorem convertPnLSummary_monetary_only_witness :
    convertPnLSummaryToCurrency ⟨100, 200, 100, 100, 1, 1, 0, 0⟩
        [{ targetCurrency := .AUD, rate := 154 / 100, timestamp := 0,
           source := .fallback }] .AUD =
      { totalCostBasisUsd := 100 * (154 / 100)
        totalCurrentValueUsd := 200 * (154 / 100)
        totalProfitLossUsd := 100 * (154 / 100)
        totalProfitLossPercentage := 100
        transactionCount := 1
        profitableTransactions := 1
        lossTransactions := 0
        breakEvenTransactions := 0 } :=
  convertPnLSummary_monetary_only.1 ⟨100, 200, 100, 100, 1, 1, 0, 0⟩
    [{ targetCurrency := .AUD, rate := 154 / 100, timestamp := 0,
       source := .fallback }] .AUD
    { targetCurrency := .AUD, rate := 154 / 100, timestamp := 0,
      source := .fallback }
    (by decide) (by rfl)

/-- C9: a transaction whose `profitLossUsd` is undefined or exactly zero is
returned unchanged by the per-transaction currency conversion, for every
rate list and target currency — its USD-denominated fields survive a
non-USD display currency selection. -/
theorem convertTransactionPnL_breakeven_identity :
    ∀ (tx : Transaction) (rates : List FXRate)
      (targetCurrency : SupportedCurrency),
      tx.profitLossUsd = none ∨ tx.profitLossUsd = some 0 →
      convertTransactionPnLToCurrency tx rates targetCurrency = tx := by
  intro tx rates targetCurrency hp
  have hfalse : truthyNum tx.profitLossUsd = false := by
    rcases hp with hp | hp <;> simp [truthyNum, hp]
  simp [convertTransactionPnLToCurrency, hfalse]

/-- A concrete break-even transaction for the C9 witness. -/
def txC9 : Transaction :=
  ⟨"0xfeed", some 1700000000000, some "0xtok", "0xsender", 1, some "5", 5,
   some 2000, some 10000, some 10000, some 0, some 0⟩

/-- Witness for `convertTransactionPnL_breakeven_identity`. -/
theorem convertTransactionPnL_breakeven_identity_witness :
    convertTransactionPnLToCurrency txC9
        [{ targetCurrency := .AUD, rate := 154 / 100, timestamp := 0,
           source := .fallback }] .AUD = txC9 :=
  convertTransactionPnL_breakeven_identity txC9
    [{ targetCurrency := .AUD, rate := 154 / 100, timestamp := 0,
       source := .fallback }] .AUD (Or.inr rfl)

/-- C10: when the selected provider responds successfully but its rate map
lacks the requested currency, the chain substitutes the static fallback
rate for that currency while the `source` field still names the provider
(`openexchangerates`), not `fallback`. -/
theorem getCurrentFXRates_missing_entry_provider_source :
    ∀ (apiKey1 : Option String) (net1 : FetchResult)
      (f : SupportedCurrency → Option ℚ) (apiKey2 : Option String)
      (net2 : FetchResult) (currencies : List SupportedCurrency) (ts : ℤ)
      (c : SupportedCurrency),
      fetchOpenExchangeRates apiKey1 net1 = some f →
      c ∈ currencies →
      f c = none →
      ({ targetCurrency := c, rate := FALLBACK_RATES c, timestamp := ts,
         source := FXSource.openexchangerates } : FXRate) ∈
        getCurrentFXRates apiKey1 net1 apiKey2 net2 currencies ts := by
  intro apiKey1 net1 f apiKey2 net2 currencies ts c h1 hc hfc
  have hout : getCurrentFXRates apiKey1 net1 apiKey2 net2 currencies ts =
      currencies.map (fun currency =>
        { targetCurrency := currency
          rate := match f currency with
            | some x => if x = 0 then FALLBACK_RATES currency else x
            | none => FALLBACK_RATES currency
          timestamp := ts
          source := FXSource.openexchangerates }) := by
    simp [getCurrentFXRates, h1]
  rw [hout]
  refine List.mem_map.mpr ⟨c, hc, ?_⟩
  simp [hfc]

/-- Witness for `getCurrentFXRates_missing_entry_provider_source`: a
provider success whose record lacks AUD yields the fallback AUD rate with
provider provenance. -/
theorem getCurrentFXRates_missing_entry_provider_source_witness :
    ({ targetCurrency := .AUD, rate := 154 / 100, timestamp := 0,
       source := FXSource.openexchangerates } : FXRate) ∈
      getCurrentFXRates (some "key") (.response true (fun _ => none)) none
        .thrown [.AUD] 0 :=
  getCurrentFXRates_missing_entry_provider_source (some "key")
    (.response true (fun _ => none)) (fun _ => none) none .thrown [.AUD] 0
    .AUD (by simp [fetchOpenExchangeRates, truthyStr]) (by decide) rfl

lemma foldl_closestStep_spec (t : ℤ) :
    ∀ (l : List (ℤ × ℚ)) (cp : ℚ) (cd : ℤ),
      (l.foldl (closestStep t) (cp, cd) = (cp, cd) ∨
        ∃ p ∈ l, l.foldl (closestStep t) (cp, cd) = (p.2, |p.1 - t|)) ∧
      (l.foldl (closestStep t) (cp, cd)).2 ≤ cd ∧
      ∀ q ∈ l, (l.foldl (closestStep t) (cp, cd)).2 ≤ |q.1 - t| := by
  intro l
  induction l with
  | nil => exact fun cp cd => ⟨Or.inl rfl, le_refl cd, by simp⟩
  | cons a l ih =>
      intro cp cd
      by_cases hlt : |a.1 - t| < cd
      · have step : closestStep t (cp, cd) a = (a.2, |a.1 - t|) := by
          simp [closestStep, hlt]
        have ihh := ih a.2 |a.1 - t|
        refine ⟨?_, ?_, ?_⟩
        · rcases ihh.1 with heq | ⟨p, hp, heq⟩
          · exact Or.inr ⟨a, List.mem_cons_self a l, by
              rw [List.foldl_cons, step, heq]⟩
          · exact Or.inr ⟨p, List.mem_cons_of_mem a hp, by
              rw [List.foldl_cons, step, heq]⟩
        · rw [List.foldl_cons, step]
          exact le_trans ihh.2.1 (le_of_lt hlt)
        · intro q hq
          rw [List.foldl_cons, step]
          rcases List.mem_cons.mp hq with hq | hq
          · subst hq; exact ihh.2.1
          · exact ihh.2.2 q hq
      · have step : closestStep t (cp, cd) a = (cp, cd) := by
          simp [closestStep, hlt]
        have ihh := ih cp cd
        refine ⟨?_, ?_, ?_⟩
        · rcases ihh.1 with heq | ⟨p, hp, heq⟩
          · exact Or.inl (by rw [List.foldl_cons, step, heq])
          · exact Or.inr ⟨p, List.mem_cons_of_mem a hp, by
              rw [List.foldl_cons, step, heq]⟩
        · rw [List.foldl_cons, step]; exact ihh.2.1
        · intro q hq
          rw [List.foldl_cons, step]
          rcases List.mem_cons.mp hq with hq | hq
          · subst hq
            exact le_trans ihh.2.1 (not_lt.mp hlt)
          · exact ihh.2.2 q hq

/-- C4: the locator queries the symmetric ±30-minute (±1800 s) window
around `floor(timestamp / 1000)`; an empty series yields `null`; a
non-empty series yields the value of a point minimizing
`abs(pointInstant - targetInstant)` (linear scan, no interpolation); and
the synthetic series `[(t - 20 min, 10), (t + 5 min, 12)]` with target `t`
yields `12`. -/
theorem historical_locator_nearest_neighbor :
    (∀ (series : ℤ → ℤ → List (ℤ × ℚ)) (timestamp : ℤ),
       fetchHistoricalCoinGeckoPrice series timestamp =
         closestScan
           (series (Int.fdiv timestamp 1000 - 1800)
             (Int.fdiv timestamp 1000 + 1800)) timestamp) ∧
    (∀ timestamp : ℤ, closestScan [] timestamp = none) ∧
    (∀ (prices : List (ℤ × ℚ)) (timestamp : ℤ),
       prices ≠ [] →
       ∃ p ∈ prices,
         closestScan prices timestamp = some p.2 ∧
         ∀ q ∈ prices, |p.1 - timestamp| ≤ |q.1 - timestamp|) ∧
    (∀ t : ℤ,
       closestScan [(t - 20 * 60000, 10), (t + 5 * 60000, 12)] t = some 12) := by
  refine ⟨fun series timestamp => rfl, fun timestamp => rfl, ?_, ?_⟩
  · intro prices timestamp hne
    obtain ⟨p0, rest, rfl⟩ := List.exists_cons_of_ne_nil hne
    have hspec := foldl_closestStep_spec timestamp (p0 :: rest) p0.2 |p0.1 - timestamp|
    rcases hspec.1 with heq | ⟨p, hp, heq⟩
    · refine ⟨p0, List.mem_cons_self p0 rest, ?_, ?_⟩
      · simp only [closestScan, heq]
      · intro q hq
        have := hspec.2.2 q hq
        rwa [heq] at this
    · refine ⟨p, hp, ?_, ?_⟩
      · simp only [closestScan, heq]
      · intro q hq
        have := hspec.2.2 q hq
        rwa [heq] at this
  · intro t
    have h1 : t - 20 * 60000 - t = (-1200000 : ℤ) := by ring
    have h2 : t + 5 * 60000 - t = (300000 : ℤ) := by ring
    simp only [closestScan, List.foldl_cons, List.foldl_nil, closestStep, h1, h2]
    norm_num

/-- Witness for `historical_locator_nearest_neighbor` on a one-point
series. -/
theorem historical_locator_nearest_neighbor_witness :
    ∃ p ∈ [((5 : ℤ), (7 : ℚ))],
      closestScan [((5 : ℤ), (7 : ℚ))] 0 = some p.2 ∧
      ∀ q ∈ [((5 : ℤ), (7 : ℚ))], |p.1 - 0| ≤ |q.1 - 0| :=
  historical_locator_nearest_neighbor.2.2.1 [(5, 7)] 0 (by simp)

/-- The (costBasisUsd, currentValueUsd) pairs of the transactions where
both fields are defined — the transactions the summary aggregates. -/
def definedPnLPairs : List Transaction → List (ℚ × ℚ)
  | [] => []
  | tx :: txs =>
      match tx.costBasisUsd, tx.currentValueUsd with
      | some cb, some cv => (cb, cv) :: definedPnLPairs txs
      | _, _ => definedPnLPairs txs

lemma summaryStep_defined (acc : SummaryAcc) (tx : Transaction) (cb cv : ℚ)
    (hcb : tx.costBasisUsd = some cb) (hcv : tx.currentValueUsd = some cv) :
    (summaryStep acc tx).totalCostBasisUsd = acc.totalCostBasisUsd + cb ∧
    (summaryStep acc tx).totalCurrentValueUsd = acc.totalCurrentValueUsd + cv := by
  rcases hp : tx.profitLossUsd with _ | p <;>
    simp only [summaryStep, hcb, hcv, hp] <;> [skip; split_ifs] <;> simp

lemma summaryStep_skipped (acc : SummaryAcc) (tx : Transaction)
    (h : tx.costBasisUsd = none ∨ tx.currentValueUsd = none) :
    summaryStep acc tx = acc := by
  rcases hcb : tx.costBasisUsd with _ | cb <;>
    rcases hcv : tx.currentValueUsd with _ | cv <;>
    simp only [summaryStep, hcb, hcv]
  rcases h with h | h
  · rw [hcb] at h; exact absurd h (by simp)
  · rw [hcv] at h; exact absurd h (by simp)

lemma foldl_summaryStep_sums :
    ∀ (txs : List Transaction) (acc : SummaryAcc),
      (txs.foldl summaryStep acc).totalCostBasisUsd =
        acc.totalCostBasisUsd + ((definedPnLPairs txs).map Prod.fst).sum ∧
      (txs.foldl summaryStep acc).totalCurrentValueUsd =
        acc.totalCurrentValueUsd + ((definedPnLPairs txs).map Prod.snd).sum := by
  intro txs
  induction txs with
  | nil => intro acc; simp [definedPnLPairs]
  | cons tx txs ih =>
      intro acc
      rcases hcb : tx.costBasisUsd with _ | cb
      · have hskip := summaryStep_skipped acc tx (Or.inl hcb)
        have ihh := ih acc
        constructor <;>
          simp only [List.foldl_cons, hskip, definedPnLPairs, hcb, ihh.1, ihh.2]
      · rcases hcv : tx.currentValueUsd with _ | cv
        · have hskip := summaryStep_skipped acc tx (Or.inr hcv)
          have ihh := ih acc
          constructor <;>
            simp only [List.foldl_cons, hskip, definedPnLPairs, hcb, hcv, ihh.1, ihh.2]
        · have hdef := summaryStep_defined acc tx cb cv hcb hcv
          have ihh := ih (summaryStep acc tx)
          constructor <;>
            simp only [List.foldl_cons, definedPnLPairs, hcb, hcv, ihh.1, ihh.2,
              hdef.1, hdef.2, List.map_cons, List.sum_cons] <;> ring

/-- C5: a transaction whose historical or current price lookup fails is
returned untouched by the batch P&L pass (its P&L fields stay undefined,
never defaulted to zero); the batch output retains one entry per input
transaction; and the portfolio summary sums `costBasisUsd` and
`currentValueUsd` independently over exactly the transactions with both
fields defined, deriving the aggregate profit and percentage from those
sums. -/
theorem pnl_partial_data_and_aggregation :
    (∀ (historicalPrices currentPrices : List (String × ℚ))
       (tx : Transaction) (ts : ℤ),
       tx.timestamp = some ts →
       List.lookup (txPriceKey tx ts) historicalPrices = none ∨
         List.lookup (txCurrentPriceKey tx) currentPrices = none →
       batchEnrichTx historicalPrices currentPrices tx = tx) ∧
    (∀ (transactions : List Transaction)
       (historicalPrices currentPrices : List (String × ℚ)),
       (calculateBatchTransactionPnL transactions historicalPrices
           currentPrices).length = transactions.length) ∧
    (∀ transactions : List Transaction,
       (calculatePortfolioPnLSummary transactions).totalCostBasisUsd =
         ((definedPnLPairs transactions).map Prod.fst).sum ∧
       (calculatePortfolioPnLSummary transactions).totalCurrentValueUsd =
         ((definedPnLPairs transactions).map Prod.snd).sum ∧
       (calculatePortfolioPnLSummary transactions).totalProfitLossUsd =
         ((definedPnLPairs transactions).map Prod.snd).sum -
           ((definedPnLPairs transactions).map Prod.fst).sum ∧
       (calculatePortfolioPnLSummary transactions).totalProfitLossPercentage =
         (if ((definedPnLPairs transactions).map Prod.fst).sum > 0 then
            (((definedPnLPairs transactions).map Prod.snd).sum -
                ((definedPnLPairs transactions).map Prod.fst).sum) /
              ((definedPnLPairs transactions).map Prod.fst).sum * 100
          else 0)) := by
  refine ⟨?_, ?_, ?_⟩
  · intro historicalPrices currentPrices tx ts hts hunav
    by_cases h0 : ts = 0
    · simp [batchEnrichTx, hts, h0]
    · rcases hh : List.lookup (txPriceKey tx ts) historicalPrices with _ | hp
      · simp [batchEnrichTx, hts, h0, hh]
      · rcases hunav with h | h
        · rw [hh] at h; exact absurd h (by simp)
        · by_cases hp0 : hp = 0
          · simp [batchEnrichTx, hts, h0, hh, hp0]
          · simp [batchEnrichTx, hts, h0, hh, hp0, h]
  · intro transactions historicalPrices currentPrices
    by_cases he : transactions = [] <;>
      simp [calculateBatchTransactionPnL, he]
  · intro transactions
    have hs := foldl_summaryStep_sums transactions ⟨0, 0, 0, 0, 0, 0⟩
    refine ⟨?_, ?_, ?_, ?_⟩ <;>
      simp only [calculatePortfolioPnLSummary, hs.1, hs.2, zero_add]

/-- A transaction with undefined P&L fields for the C5 witness. -/
def txC5 : Transaction :=
  ⟨"0xbeef", some 1700000000000, some "0xtok", "0xsender", 1, some "3", 3,
   none, none, none, none, none⟩

/-- Witness for `pnl_partial_data_and_aggregation`: with empty price maps
the transaction is returned untouched. -/
theorem pnl_partial_data_and_aggregation_witness :
    batchEnrichTx [] [] txC5 = txC5 :=
  pnl_partial_data_and_aggregation.1 [] [] txC5 1700000000000 rfl (Or.inl rfl)

lemma fetchWithRetryAux_429 (maxRetries : ℕ) :
    ∀ (fuel attempt : ℕ) (delays : List ℕ),
      fetchWithRetryAux (fun _ => .respStatus 429) maxRetries fuel attempt delays =
        (none, delays ++ (List.range fuel).map (fun i => 2 ^ (attempt + i) * 1000)) := by
  intro fuel
  induction fuel with
  | zero => intro attempt delays; simp [fetchWithRetryAux]
  | succ fuel ih =>
      intro attempt delays
      rw [show fetchWithRetryAux (fun _ => .respStatus 429) maxRetries (fuel + 1)
            attempt delays =
          fetchWithRetryAux (fun _ => .respStatus 429) maxRetries fuel (attempt + 1)
            (delays ++ [2 ^ attempt * 1000]) from rfl]
      rw [ih (attempt + 1) (delays ++ [2 ^ attempt * 1000])]
      have hfun : ((fun i => 2 ^ (attempt + 1 + i) * 1000) : ℕ → ℕ) =
          fun i => 2 ^ (attempt + (i + 1)) * 1000 := by
        funext i
        have he : attempt + 1 + i = attempt + (i + 1) := by omega
        rw [he]
      simp [List.range_succ_eq_map, List.map_map, Function.comp_def, hfun]

lemma fetchWithRetryAux_net (maxRetries : ℕ) :
    ∀ (fuel attempt : ℕ) (delays : List ℕ),
      attempt + fuel = maxRetries →
      fetchWithRetryAux (fun _ => .netErr) maxRetries fuel attempt delays =
        (none, delays ++ (List.range (fuel - 1)).map (fun i => 1000 * (attempt + i + 1))) := by
  intro fuel
  induction fuel with
  | zero => intro attempt delays _; simp [fetchWithRetryAux]
  | succ fuel ih =>
      intro attempt delays htot
      rcases Nat.eq_zero_or_pos fuel with hf0 | hfpos
      · subst hf0
        have hnot : ¬ attempt < maxRetries - 1 := by omega
        rw [show fetchWithRetryAux (fun _ => .netErr) maxRetries 1 attempt delays =
            (if attempt < maxRetries - 1 then
               fetchWithRetryAux (fun _ => .netErr) maxRetries 0 (attempt + 1)
                 (delays ++ [1000 * (attempt + 1)])
             else
               fetchWithRetryAux (fun _ => .netErr) maxRetries 0 (attempt + 1) delays)
            from rfl]
        rw [if_neg hnot]
        simp [fetchWithRetryAux]
      · have hlt : attempt < maxRetries - 1 := by omega
        rw [show fetchWithRetryAux (fun _ => .netErr) maxRetries (fuel + 1) attempt delays =
            (if attempt < maxRetries - 1 then
               fetchWithRetryAux (fun _ => .netErr) maxRetries fuel (attempt + 1)
                 (delays ++ [1000 * (attempt + 1)])
             else
               fetchWithRetryAux (fun _ => .netErr) maxRetries fuel (attempt + 1) delays)
            from rfl]
        rw [if_pos hlt]
        rw [ih (attempt + 1) (delays ++ [1000 * (attempt + 1)]) (by omega)]
        have hfuel : fuel - 1 + 1 = fuel := by omega
        have hfun : ((fun i => 1000 * (attempt + 1 + i + 1)) : ℕ → ℕ) =
            fun i => 1000 * (attempt + (i + 1) + 1) := by
          funext i
          have he : attempt + 1 + i + 1 = attempt + (i + 1) + 1 := by omega
          rw [he]
        calc (none, delays ++ [1000 * (attempt + 1)] ++
              (List.range (fuel - 1)).map (fun i => 1000 * (attempt + 1 + i + 1)))
            = (none, delays ++ (List.range (fuel - 1 + 1)).map
                (fun i => 1000 * (attempt + i + 1))) := by
              simp [List.range_succ_eq_map, List.map_map, Function.comp_def, hfun]
          _ = (none, delays ++ (List.range (fuel + 1 - 1)).map
                (fun i => 1000 * (attempt + i + 1))) := by
              rw [hfuel]
              norm_num

/-- C6 counterexample: with `maxRetries = 4` an always-rate-limited job
sleeps `[1000, 2000, 4000, 8000]` ms (exponential, one delay after every
failed attempt) while an always-network-erroring job sleeps
`[1000, 2000, 3000]` ms (linear, and no delay after the final attempt) —
the per-attempt delay schedules are not identical. -/
theorem fetchWithRetry_schedules_differ :
    (fetchWithRetry (fun _ => .netErr) 4).2 = [1000, 2000, 3000] ∧
    (fetchWithRetry (fun _ => .respStatus 429) 4).2 = [1000, 2000, 4000, 8000] ∧
    (fetchWithRetry (fun _ => .netErr) 4).2 ≠
      (fetchWithRetry (fun _ => .respStatus 429) 4).2 :=
  ⟨rfl, rfl, by decide⟩

/-- C6 (amended): within the up-to-`maxRetries` attempts, a 429-rate-limited
attempt is retried with exponential backoff of `2 ^ attempt` seconds after
every failed attempt, while a network error is retried up to the same
number of attempts (same eligibility, both exhausting to a thrown error)
but with linear backoff of `attempt + 1` seconds, applied only before a
following attempt; the schedules coincide on attempts 0 and 1 and differ
from attempt 2 on. -/
theorem fetchWithRetry_backoff_schedules :
    (∀ maxRetries : ℕ,
       fetchWithRetry (fun _ => .respStatus 429) maxRetries =
         (none, (List.range maxRetries).map (fun attempt => 2 ^ attempt * 1000))) ∧
    (∀ maxRetries : ℕ,
       fetchWithRetry (fun _ => .netErr) maxRetries =
         (none, (List.range (maxRetries - 1)).map (fun attempt => 1000 * (attempt + 1)))) := by
  constructor
  · intro maxRetries
    simpa [fetchWithRetry] using fetchWithRetryAux_429 maxRetries maxRetries 0 []
  · intro maxRetries
    simpa [fetchWithRetry] using
      fetchWithRetryAux_net maxRetries maxRetries 0 [] (by omega)

/-- C8: the backup provider can never supply historical FX rates (its free
tier returns `null` unconditionally), so when the primary historical fetch
fails the engine silently substitutes the current rates; every rate
returned by this substitution carries provenance `fallback` with the
requested date attached. -/
theorem getHistoricalFXRates_fallback_substitution :
    (∀ apiKey, fetchHistoricalExchangeRateAPI apiKey = none) ∧
    (∀ (apiKey1 : Option String) (histNet : FetchResult) (apiKey2 : Option String)
       (curNet1 curNet2 : FetchResult) (dateString : String) (ts : ℤ)
       (currencies : List SupportedCurrency),
       fetchHistoricalOpenExchangeRates apiKey1 histNet = none →
       getHistoricalFXRates apiKey1 histNet apiKey2 curNet1 curNet2 dateString
           ts currencies =
         (getCurrentFXRates apiKey1 curNet1 apiKey2 curNet2 currencies ts).map
           (fun r =>
             { targetCurrency := r.targetCurrency, rate := r.rate,
               timestamp := r.timestamp, date := dateString,
               source := FXSource.fallback }) ∧
       ∀ hr ∈ getHistoricalFXRates apiKey1 histNet apiKey2 curNet1 curNet2
           dateString ts currencies,
         hr.source = FXSource.fallback ∧ hr.date = dateString) := by
  have hbackup : ∀ apiKey, fetchHistoricalExchangeRateAPI apiKey = none := by
    intro apiKey
    simp [fetchHistoricalExchangeRateAPI]
  refine ⟨hbackup, ?_⟩
  intro apiKey1 histNet apiKey2 curNet1 curNet2 dateString ts currencies h1
  have heq : getHistoricalFXRates apiKey1 histNet apiKey2 curNet1 curNet2
      dateString ts currencies =
      (getCurrentFXRates apiKey1 curNet1 apiKey2 curNet2 currencies ts).map
        (fun r =>
          { targetCurrency := r.targetCurrency, rate := r.rate,
            timestamp := r.timestamp, date := dateString,
            source := FXSource.fallback }) := by
    simp [getHistoricalFXRates, h1, hbackup apiKey2]
  refine ⟨heq, ?_⟩
  intro hr hmem
  rw [heq] at hmem
  obtain ⟨r, _, rfl⟩ := List.mem_map.mp hmem
  exact ⟨rfl, rfl⟩

/-- Witness for `getHistoricalFXRates_fallback_substitution` with no
providers configured. -/
theorem getHistoricalFXRates_fallback_substitution_witness :
    getHistoricalFXRates none .thrown none .thrown .thrown "2024-01-01" 0 [.AUD] =
      (getCurrentFXRates none .thrown none .thrown [.AUD] 0).map
        (fun r =>
          { targetCurrency := r.targetCurrency, rate := r.rate,
            timestamp := r.timestamp, date := "2024-01-01",
            source := FXSource.fallback }) :=
  (getHistoricalFXRates_fallback_substitution.2 none .thrown none .thrown
    .thrown "2024-01-01" 0 [.AUD] rfl).1
